import Mathlib

/-!
# Rugby (Game Boy emulator) — verification of spec claims

The repository's visible sources are the two frontend files
`src/main.rs` and `src/frontend.rs`; the emulation core they drive
(`cpu`, `gpu`, `cart`, `cart_header`, `timer`, `joypad`, interrupt
controller) is declared and called but its code is not under `src/`.
Definitions for the core are therefore modelled from the spec, as marked
in their doc comments; the frontend pixel-conversion loop is embedded
directly from `src/frontend.rs`.

Bytes are modelled as `Nat` values below 256, addresses as `Nat` values
below 65536; masking (`&&& 0x1F`, `% 256`, ...) is written explicitly
where the code/spec relies on it.
-/

namespace Rugby

/-! ## Processor stepping wrappers (claim C1)

Modelled from the spec: `step()` executes one unit of work and returns a
positive elapsed cycle count; `step_cycles(n)` repeatedly invokes
`step()` until at least `n` cycles have been consumed; `step_n(n)`
invokes `step()` exactly `n` times.  The step function is abstract here
(the CPU core is not in the visible sources); the spec's "a positive
integer" cycle cost is the hypothesis `hstep`.  The result records the
final state, the accumulated cycle total, and the list of individual
per-step cycle costs (the trace), so that "a final step that overshoots
the budget is counted in full, with no partial cycles refunded" can be
stated. -/

/-- Result of a stepping loop: final state, accumulated cycles,
and the cycle cost returned by each individual `step()` call. -/
structure StepRun (σ : Type) where
  state : σ
  total : Nat
  trace : List Nat

/-- Modelled from the spec: the loop body of `step_cycles(n)` (the CPU
core's code is not in the visible sources).  Keeps calling `step` while
the accumulated cycle count `acc` is below the budget `n`; a step's cost
is always added in full. -/
def stepCyclesGo {σ : Type} (step : σ → σ × Nat)
    (hstep : ∀ s, 0 < (step s).2)
    (n : Nat) (s : σ) (acc : Nat) (tr : List Nat) : StepRun σ :=
  if h : n ≤ acc then ⟨s, acc, tr⟩
  else
    stepCyclesGo step hstep n (step s).1 (acc + (step s).2)
      (tr ++ [(step s).2])
termination_by n - acc
decreasing_by
  have hc := hstep s
  show n - (acc + (step s).2) < n - acc
  omega

/-- Modelled from the spec: `step_cycles(n)` — repeatedly invoke
`step()` until at least `n` cycles have been consumed. -/
def step_cycles {σ : Type} (step : σ → σ × Nat)
    (hstep : ∀ s, 0 < (step s).2) (n : Nat) (s : σ) : StepRun σ :=
  stepCyclesGo step hstep n s 0 []

/-- Modelled from the spec: the loop body of `step_n(n)` — invoke
`step()` once per remaining instruction. -/
def stepNGo {σ : Type} (step : σ → σ × Nat) :
    Nat → σ → Nat → List Nat → StepRun σ
  | 0, s, acc, tr => ⟨s, acc, tr⟩
  | k + 1, s, acc, tr =>
    stepNGo step k (step s).1 (acc + (step s).2) (tr ++ [(step s).2])

/-- Modelled from the spec: `step_n(n)` — invoke `step()` exactly `n`
times (one instruction per step). -/
def step_n {σ : Type} (step : σ → σ × Nat) (n : Nat) (s : σ) :
    StepRun σ :=
  stepNGo step n s 0 []

lemma stepCyclesGo_spec {σ : Type} (step : σ → σ × Nat)
    (hstep : ∀ s, 0 < (step s).2)
    (n : Nat) : ∀ (s : σ) (acc : Nat) (tr : List Nat),
    n ≤ (stepCyclesGo step hstep n s acc tr).total ∧
    (∃ ext : List Nat,
      (stepCyclesGo step hstep n s acc tr).trace = tr ++ ext ∧
      (stepCyclesGo step hstep n s acc tr).total = acc + ext.sum ∧
      (∀ pre last, ext = pre ++ [last] → acc + pre.sum < n) ∧
      (ext = [] → n ≤ acc)) := by
  intro s acc tr
  induction s, acc, tr using stepCyclesGo.induct step hstep n with
  | case1 s acc tr h =>
    rw [stepCyclesGo, dif_pos h]
    refine ⟨h, [], by simp, by simp, ?_, fun _ => h⟩
    intro pre last hpl
    exact absurd hpl (by simp)
  | case2 s acc tr h ih =>
    rw [stepCyclesGo, dif_neg h]
    obtain ⟨htot, ext, htr, hsum, hpre, _⟩ := ih
    refine ⟨htot, (step s).2 :: ext, ?_, ?_, ?_, ?_⟩
    · rw [htr]; simp
    · rw [hsum]; simp; omega
    · intro pre last hpl
      cases pre with
      | nil =>
        simp only [List.nil_append] at hpl
        simp
        omega
      | cons p ps =>
        simp only [List.cons_append, List.cons.injEq] at hpl
        have := hpre ps last hpl.2
        simp [hpl.1]
        omega
    · intro hx; exact absurd hx (by simp)

/-- The list of per-step cycle costs of the first `k` invocations of
`step` from state `s`. -/
def stepNTrace {σ : Type} (step : σ → σ × Nat) : Nat → σ → List Nat
  | 0, _ => []
  | k + 1, s => (step s).2 :: stepNTrace step k (step s).1

/-- The state after `k` invocations of `step` from state `s`. -/
def stepNState {σ : Type} (step : σ → σ × Nat) : Nat → σ → σ
  | 0, s => s
  | k + 1, s => stepNState step k (step s).1

lemma stepNGo_eq {σ : Type} (step : σ → σ × Nat) :
    ∀ (k : Nat) (s : σ) (acc : Nat) (tr : List Nat),
    stepNGo step k s acc tr =
      ⟨stepNState step k s, acc + (stepNTrace step k s).sum,
        tr ++ stepNTrace step k s⟩ := by
  intro k
  induction k with
  | zero => intro s acc tr; simp [stepNGo, stepNState, stepNTrace]
  | succ k ih =>
    intro s acc tr
    simp only [stepNGo, stepNState, stepNTrace, ih, List.sum_cons,
      StepRun.mk.injEq]
    refine ⟨by trivial, by omega, by simp⟩

lemma stepNTrace_length {σ : Type} (step : σ → σ × Nat) :
    ∀ (k : Nat) (s : σ), (stepNTrace step k s).length = k := by
  intro k
  induction k with
  | zero => intro s; simp [stepNTrace]
  | succ k ih => intro s; simp [stepNTrace, ih]

/-- C1: For every `n`, `step_cycles(n)` repeatedly invokes `step()`
until the accumulated elapsed-cycle total is at least `n`, and
`step_n(n)` repeatedly invokes `step()` until exactly `n` instructions
have been consumed; in both cases a final step that overshoots the
requested budget is counted in full (the total is the sum of the full
per-step costs, and the costs accumulated before the final step were
below the budget), so the accumulated total on return is `≥` the
request. -/
theorem step_cycles_step_n_budget {σ : Type}
    (step : σ → σ × Nat) (hstep : ∀ s, 0 < (step s).2)
    (n : Nat) (s : σ) :
    n ≤ (step_cycles step hstep n s).total ∧
    (step_cycles step hstep n s).total =
      (step_cycles step hstep n s).trace.sum ∧
    (∀ pre last, (step_cycles step hstep n s).trace = pre ++ [last] →
      pre.sum < n ∧ n ≤ pre.sum + last) ∧
    (step_n step n s).trace.length = n ∧
    (step_n step n s).total = (step_n step n s).trace.sum := by
  obtain ⟨htot, ext, htr, hsum, hpre, _⟩ := stepCyclesGo_spec step hstep n s 0 []
  simp only [List.nil_append] at htr
  refine ⟨htot, ?_, ?_, ?_, ?_⟩
  · show (stepCyclesGo step hstep n s 0 []).total =
      (stepCyclesGo step hstep n s 0 []).trace.sum
    rw [hsum, htr]
    omega
  · intro pre last hpl
    replace hpl : (stepCyclesGo step hstep n s 0 []).trace = pre ++ [last] := hpl
    rw [htr] at hpl
    have h1 := hpre pre last hpl
    have h2 : (stepCyclesGo step hstep n s 0 []).total = pre.sum + last := by
      rw [hsum, hpl]; simp
    constructor
    · omega
    · rw [h2] at htot; exact htot
  · show (stepNGo step n s 0 []).trace.length = n
    rw [stepNGo_eq]
    simpa using stepNTrace_length step n s
  · show (stepNGo step n s 0 []).total = (stepNGo step n s 0 []).trace.sum
    rw [stepNGo_eq]
    simp

/-- Witness for C1 at a concrete step function of constant cost 3 and a
budget of 7 cycles: the loop runs three steps for a total of 9. -/
theorem step_cycles_step_n_budget_witness :
    7 ≤ (step_cycles (fun s : Nat => (s + 1, 3))
        (fun _ => Nat.succ_pos 2) 7 0).total ∧
    ([3, 3].sum < 7 ∧ 7 ≤ [3, 3].sum + 3) ∧
    (step_n (fun s : Nat => (s + 1, 3)) 4 0).trace.length = 4 := by
  have h := step_cycles_step_n_budget
    (fun s : Nat => (s + 1, 3)) (fun _ => Nat.succ_pos 2) 7 0
  have h4 := step_cycles_step_n_budget
    (fun s : Nat => (s + 1, 3)) (fun _ => Nat.succ_pos 2) 4 0
  refine ⟨h.1, ?_, h4.2.2.2.1⟩
  refine h.2.2.1 [3, 3] 3 ?_
  show (stepCyclesGo (fun s : Nat => (s + 1, 3))
    (fun _ => Nat.succ_pos 2) 7 0 0 []).trace = [3, 3] ++ [3]
  rw [stepCyclesGo]; norm_num
  rw [stepCyclesGo]; norm_num
  rw [stepCyclesGo]; norm_num
  rw [stepCyclesGo]; norm_num

/-! ## Picture unit state machine (claim C2)

Modelled from the spec: a state machine over {OAM-scan (80 cycles),
pixel-transfer (variable, nominally 172 cycles — the nominal length is
used here), H-blank (remainder of the 456-cycle scanline, i.e. 204
cycles), V-blank (10 scanlines × 456 cycles)}; 144 visible scanlines,
scanline index 0–153, an internal cycle counter within the current
mode.  Interrupts and software writes are absent from the model, which
is exactly the claim's "interrupts disabled and no software writes". -/

inductive GpuMode where
  | oamScan
  | pixelTransfer
  | hblank
  | vblank
  deriving DecidableEq, Repr

/-- Picture-unit timing state: current mode, current scanline index
(0–153), and the cycle counter within the current mode. -/
structure Gpu where
  mode : GpuMode
  line : Nat
  modeCycles : Nat
  deriving DecidableEq, Repr

/-- Modelled from the spec: advance the picture-unit timing state
machine by one cycle, transitioning on each mode boundary.  OAM-scan
lasts 80 cycles, pixel-transfer 172 (nominal), H-blank the remaining
204 cycles of the 456-cycle scanline; after H-blank of line 143 the
unit enters V-blank, which lasts 10 scanlines of 456 cycles each and
then returns to OAM-scan of line 0. -/
def gpuTick (g : Gpu) : Gpu :=
  match g.mode with
  | .oamScan =>
    if g.modeCycles + 1 = 80 then ⟨.pixelTransfer, g.line, 0⟩
    else ⟨.oamScan, g.line, g.modeCycles + 1⟩
  | .pixelTransfer =>
    if g.modeCycles + 1 = 172 then ⟨.hblank, g.line, 0⟩
    else ⟨.pixelTransfer, g.line, g.modeCycles + 1⟩
  | .hblank =>
    if g.modeCycles + 1 = 204 then
      if g.line + 1 = 144 then ⟨.vblank, 144, 0⟩
      else ⟨.oamScan, g.line + 1, 0⟩
    else ⟨.hblank, g.line, g.modeCycles + 1⟩
  | .vblank =>
    if g.modeCycles + 1 = 456 then
      if g.line + 1 = 154 then ⟨.oamScan, 0, 0⟩
      else ⟨.vblank, g.line + 1, 0⟩
    else ⟨.vblank, g.line, g.modeCycles + 1⟩

/-- Advance the picture unit by `n` cycles. -/
def gpuStep : Nat → Gpu → Gpu
  | 0, g => g
  | n + 1, g => gpuStep n (gpuTick g)

/-- The picture unit at OAM-scan of scanline 0 with a fresh counter. -/
def gpuInit : Gpu := ⟨.oamScan, 0, 0⟩

/-- The spec's frame schedule, as a function of the position `u` within
the 70224-cycle frame: lines 0–143 run OAM-scan for cycles 0–79 of the
line, pixel-transfer for cycles 80–251, H-blank for cycles 252–455;
lines 144–153 are V-blank. -/
def gpuSchedAux (u : Nat) : Gpu :=
  let l := u / 456
  let c := u % 456
  if l < 144 then
    if c < 80 then ⟨.oamScan, l, c⟩
    else if c < 252 then ⟨.pixelTransfer, l, c - 80⟩
    else ⟨.hblank, l, c - 252⟩
  else ⟨.vblank, l, c⟩

/-- The spec's frame schedule at absolute cycle `t`, periodic with the
70224-cycle frame. -/
def gpuScheduleState (t : Nat) : Gpu := gpuSchedAux (t % 70224)

set_option maxHeartbeats 1000000 in
lemma tick_gpuSchedAux (u : Nat) (hu : u < 70224) :
    gpuTick (gpuSchedAux u) =
      gpuSchedAux (if u + 1 = 70224 then 0 else u + 1) := by
  simp only [gpuSchedAux]
  split_ifs <;>
    simp_all only [gpuTick, Gpu.mk.injEq] <;>
    (try split_ifs) <;>
    simp_all <;>
    omega

lemma gpuStep_tick_comm (n : Nat) (g : Gpu) :
    gpuStep n (gpuTick g) = gpuTick (gpuStep n g) := by
  induction n generalizing g with
  | zero => simp [gpuStep]
  | succ n ih => simp only [gpuStep]; rw [ih]

lemma gpuStep_schedule (t : Nat) :
    gpuStep t gpuInit = gpuScheduleState t := by
  induction t with
  | zero => simp [gpuStep, gpuScheduleState, gpuSchedAux, gpuInit]
  | succ t ih =>
    have h1 : gpuStep (t + 1) gpuInit = gpuTick (gpuStep t gpuInit) := by
      simp only [gpuStep]
      exact gpuStep_tick_comm t gpuInit
    rw [h1, ih]
    have hu : t % 70224 < 70224 := Nat.mod_lt _ (by norm_num)
    have h2 := tick_gpuSchedAux (t % 70224) hu
    rw [gpuScheduleState, gpuScheduleState] at *
    rw [h2]
    by_cases hend : t % 70224 + 1 = 70224
    · rw [if_pos hend]
      have : (t + 1) % 70224 = 0 := by omega
      rw [this]
    · rw [if_neg hend]
      have : (t + 1) % 70224 = t % 70224 + 1 := by omega
      rw [this]

/-- C2: Starting from OAM-scan of scanline 0, stepping the picture unit
for exactly 70224 cycles (with interrupts and software writes absent
from the model) drives the mode through OAM-scan (cycles 0–79 of each
line), pixel-transfer (80–251), H-blank (252–455) for each of scanlines
0–143, then V-blank for the 10 scanlines 144–153, and leaves it back at
OAM-scan of scanline 0. -/
theorem gpu_frame_sequence :
    (∀ t : Nat, gpuStep t gpuInit = gpuScheduleState t) ∧
    (∀ t < 70224,
      (gpuStep t gpuInit).line = t / 456 ∧
      (gpuStep t gpuInit).mode =
        (if t / 456 < 144 then
          (if t % 456 < 80 then GpuMode.oamScan
           else if t % 456 < 252 then GpuMode.pixelTransfer
           else GpuMode.hblank)
         else GpuMode.vblank)) ∧
    gpuStep 70224 gpuInit = gpuInit := by
  refine ⟨gpuStep_schedule, ?_, ?_⟩
  · intro t ht
    rw [gpuStep_schedule, gpuScheduleState, Nat.mod_eq_of_lt ht]
    have h456 : t % 456 < 456 := Nat.mod_lt _ (by norm_num)
    rcases Nat.lt_or_ge (t / 456) 144 with hl | hl
    · rcases Nat.lt_or_ge (t % 456) 80 with h80 | h80
      · simp [gpuSchedAux, hl, h80]
      · rcases Nat.lt_or_ge (t % 456) 252 with h252 | h252
        · simp [gpuSchedAux, hl, h252, Nat.not_lt.mpr h80]
        · simp [gpuSchedAux, hl, Nat.not_lt.mpr h80, Nat.not_lt.mpr h252]
    · simp [gpuSchedAux, Nat.not_lt.mpr hl]
  · rw [gpuStep_schedule, gpuScheduleState]
    norm_num [gpuSchedAux, gpuInit]

/-- Witness for C2's bounded clause at a concrete cycle: cycle 600 of
the frame lies in pixel-transfer of scanline 1. -/
theorem gpu_frame_sequence_witness :
    (gpuStep 600 gpuInit).line = 1 ∧
    (gpuStep 600 gpuInit).mode = GpuMode.pixelTransfer := by
  have h := gpu_frame_sequence.2.1 600 (by norm_num)
  refine ⟨?_, ?_⟩
  · rw [h.1]
  · rw [h.2]; norm_num

/-! ## Interrupt controller and processor dispatch (claims C3, C4)

Modelled from the spec: the interrupt state is an enable mask and a
pending-flags mask, each a 5-bit set over {VBlank, Picture-status,
Timer, Serial, Joypad} (bits 0–4); only bits present in both masks are
eligible for dispatch, and dispatch order is fixed priority with VBlank
(bit 0) highest and Joypad (bit 4) lowest.  `step()` first dispatches
an eligible pending interrupt when IME is active (push the program
counter, clear IME, jump to the fixed service address, clear that
source's pending bit); otherwise it executes the instruction at the
program counter.  The "enable interrupts" instruction has
one-instruction-delayed activation.  Only the instructions the claims
exercise are modelled (`nop`, `ei`, `di`); memory is a byte store. -/

inductive Instr where
  | nop
  | ei
  | di
  deriving DecidableEq, Repr

/-- Processor state: program counter, stack pointer, byte memory,
IME flip-flop, its one-instruction delay flag, the interrupt enable and
pending-flag masks (5-bit sets), halt flag, and the instruction at each
address. -/
structure CpuState where
  pc : Nat
  sp : Nat
  mem : Nat → Nat
  ime : Bool
  imeDelay : Bool
  intEnable : Nat
  intFlags : Nat
  halted : Bool
  prog : Nat → Instr

/-- The interrupt sources that are both pending and enabled (the only
bits eligible for dispatch), as a 5-bit set. -/
def eligible (s : CpuState) : Nat := s.intEnable &&& s.intFlags &&& 31

/-- Modelled from the spec: the highest-priority set bit of a 5-bit
interrupt set — VBlank (bit 0) highest, Joypad (bit 4) lowest. -/
def highestPriority (m : Nat) : Nat :=
  if m.testBit 0 then 0
  else if m.testBit 1 then 1
  else if m.testBit 2 then 2
  else if m.testBit 3 then 3
  else 4

/-- The fixed service address of interrupt source `i`:
0x40, 0x48, 0x50, 0x58, 0x60. -/
def serviceAddr (i : Nat) : Nat := 0x40 + 8 * i

/-- Modelled from the spec: interrupt dispatch — push the program
counter (two bytes below the stack pointer), clear IME, jump to the
service address of the highest-priority eligible source, clear that
source's pending bit, exit Halted mode. -/
def dispatch (s : CpuState) : CpuState :=
  let i := highestPriority (eligible s)
  { s with
    pc := serviceAddr i
    sp := s.sp - 2
    mem := fun a =>
      if a = s.sp - 1 then s.pc / 256 % 256
      else if a = s.sp - 2 then s.pc % 256
      else s.mem a
    ime := false
    imeDelay := false
    intFlags := s.intFlags &&& (31 ^^^ (1 <<< i))
    halted := false }

/-- Modelled from the spec: effect of the modelled instructions.  `ei`
only schedules interrupt enablement (the delay flag); `di` disables
immediately. -/
def execInstr : Instr → CpuState → CpuState
  | .nop, s => { s with pc := s.pc + 1 }
  | .ei, s => { s with pc := s.pc + 1, imeDelay := true }
  | .di, s => { s with pc := s.pc + 1, ime := false, imeDelay := false }

/-- Cycle cost of the modelled instructions. -/
def instrCycles : Instr → Nat
  | .nop => 4
  | .ei => 4
  | .di => 4

/-- Modelled from the spec: one `step()` of the processor — dispatch an
eligible pending interrupt if IME is active, else idle if halted, else
execute one instruction; a pending IME enablement from a preceding `ei`
takes effect after the instruction completes. -/
def cpuStep (s : CpuState) : CpuState × Nat :=
  if s.ime = true ∧ eligible s ≠ 0 then (dispatch s, 20)
  else if s.halted = true then (s, 4)
  else
    let instr := s.prog s.pc
    let s1 := execInstr instr s
    let s2 :=
      if s.imeDelay = true ∧ instr ≠ Instr.ei then
        { s1 with ime := true, imeDelay := false }
      else s1
    (s2, instrCycles instr)

lemma highestPriority_lt_5 (m : Nat) : highestPriority m < 5 := by
  unfold highestPriority
  split_ifs <;> norm_num

lemma eligible_lt_32 (s : CpuState) : eligible s < 32 :=
  Nat.lt_succ_of_le (Nat.and_le_right)

lemma highestPriority_min (m : Nat) (hm : m < 32) (hne : m ≠ 0) :
    m.testBit (highestPriority m) = true ∧
    ∀ j < highestPriority m, m.testBit j = false := by
  revert hne
  revert hm
  revert m
  decide

/-- The interrupt handler re-enabling IME (the effect of its `reti`/`ei`,
abstracted): same state with the IME flip-flop set. -/
def reenable (s : CpuState) : CpuState := { s with ime := true }

/-- C3: when VBlank (bit 0) and Timer (bit 2) are both pending and both
enabled, IME is active, and no higher-priority source sits between them
(Picture-status, bit 1, is not eligible), the next dispatch services
VBlank — pushes the program counter, jumps to 0x40, clears only
VBlank's pending bit — and the dispatch after that (once the handler
re-enables IME) services Timer at 0x50; in general the serviced source
is always the lowest-index eligible bit (VBlank highest priority,
Joypad lowest). -/
theorem interrupt_priority_vblank_timer (s : CpuState)
    (him : s.ime = true) (hsp : 2 ≤ s.sp)
    (hv : s.intFlags.testBit 0 = true) (ht : s.intFlags.testBit 2 = true)
    (hev : s.intEnable.testBit 0 = true) (het : s.intEnable.testBit 2 = true)
    (hstat : (s.intEnable &&& s.intFlags).testBit 1 = false) :
    (cpuStep s).1.pc = 0x40 ∧
    (cpuStep s).1.mem (s.sp - 1) = s.pc / 256 % 256 ∧
    (cpuStep s).1.mem (s.sp - 2) = s.pc % 256 ∧
    (cpuStep s).1.intFlags.testBit 0 = false ∧
    (cpuStep s).1.intFlags.testBit 2 = true ∧
    (∀ j < 5, j ≠ 0 →
      (cpuStep s).1.intFlags.testBit j = s.intFlags.testBit j) ∧
    (cpuStep s).1.ime = false ∧
    (cpuStep (reenable (cpuStep s).1)).1.pc = 0x50 ∧
    (cpuStep (reenable (cpuStep s).1)).1.intFlags.testBit 2 = false ∧
    (∀ m : Nat, m < 32 → m ≠ 0 →
      m.testBit (highestPriority m) = true ∧
      ∀ j < highestPriority m, m.testBit j = false) := by
  have h31t0 : (31 : Nat).testBit 0 = true := by decide
  have h31t2 : (31 : Nat).testBit 2 = true := by decide
  have h30t0 : (30 : Nat).testBit 0 = false := by decide
  have h30t2 : (30 : Nat).testBit 2 = true := by decide
  have helig0 : (eligible s).testBit 0 = true := by
    simp only [eligible, Nat.testBit_and, hv, hev, h31t0, Bool.and_true,
      Bool.true_and]
  have hne : eligible s ≠ 0 := by
    intro h0
    rw [h0] at helig0
    simp at helig0
  have hhp : highestPriority (eligible s) = 0 := by
    rw [highestPriority, if_pos helig0]
  have hstep : cpuStep s = (dispatch s, 20) := by
    rw [cpuStep, if_pos ⟨him, hne⟩]
  rw [hstep]
  have hflags : (dispatch s).intFlags = s.intFlags &&& 30 := by
    simp [dispatch, hhp]
  -- the second dispatch, from the post-V-Blank-dispatch state with IME
  -- re-enabled by the handler
  have henab : (reenable (dispatch s)).intEnable = s.intEnable := by
    simp [reenable, dispatch]
  have hflags2 : (reenable (dispatch s)).intFlags = s.intFlags &&& 30 := by
    rw [show (reenable (dispatch s)).intFlags = (dispatch s).intFlags from rfl,
      hflags]
  have hime2 : (reenable (dispatch s)).ime = true := rfl
  have he2 : eligible (reenable (dispatch s))
      = s.intEnable &&& (s.intFlags &&& 30) &&& 31 := by
    rw [eligible, henab, hflags2]
  have he2t0 : (eligible (reenable (dispatch s))).testBit 0 = false := by
    rw [he2]
    simp only [Nat.testBit_and, h30t0, h31t0, Bool.and_false, Bool.and_true,
      Bool.false_and]
  have he2t1 : (eligible (reenable (dispatch s))).testBit 1 = false := by
    rw [he2]
    rw [Nat.testBit_and] at hstat
    rcases Bool.and_eq_false_iff.mp hstat with h1 | h1 <;>
      simp [Nat.testBit_and, h1]
  have he2t2 : (eligible (reenable (dispatch s))).testBit 2 = true := by
    rw [he2]
    simp only [Nat.testBit_and, het, ht, h30t2, h31t2, Bool.and_true,
      Bool.true_and]
  have hne2 : eligible (reenable (dispatch s)) ≠ 0 := by
    intro h0
    rw [h0] at he2t2
    simp at he2t2
  have hhp2 : highestPriority (eligible (reenable (dispatch s))) = 2 := by
    rw [highestPriority, if_neg (by simp [he2t0]),
      if_neg (by simp [he2t1]), if_pos he2t2]
  have hstep2 : cpuStep (reenable (dispatch s))
      = (dispatch (reenable (dispatch s)), 20) := by
    rw [cpuStep, if_pos ⟨hime2, hne2⟩]
  refine ⟨?_, ?_, ?_, ?_, ?_, ?_, ?_, ?_, ?_, highestPriority_min⟩
  · simp [dispatch, hhp, serviceAddr]
  · simp [dispatch]
  · have hspne : s.sp - 2 ≠ s.sp - 1 := by omega
    simp [dispatch, hspne]
  · show (dispatch s).intFlags.testBit 0 = false
    rw [hflags, Nat.testBit_and, hv, h30t0]
    rfl
  · show (dispatch s).intFlags.testBit 2 = true
    rw [hflags, Nat.testBit_and, ht, h30t2]
    rfl
  · intro j hj5 hj
    show (dispatch s).intFlags.testBit j = s.intFlags.testBit j
    rw [hflags, Nat.testBit_and]
    have h30 : (30 : Nat).testBit j = true := by
      interval_cases j <;> simp_all <;> decide
    rw [h30, Bool.and_true]
  · simp [dispatch]
  · show (cpuStep (reenable (dispatch s))).1.pc = 0x50
    rw [hstep2]
    show (dispatch (reenable (dispatch s))).pc = 0x50
    show serviceAddr (highestPriority (eligible (reenable (dispatch s)))) = 0x50
    rw [hhp2]
    rfl
  · show (cpuStep (reenable (dispatch s))).1.intFlags.testBit 2 = false
    rw [hstep2]
    show ((reenable (dispatch s)).intFlags &&&
      (31 ^^^ (1 <<< highestPriority (eligible (reenable (dispatch s)))))).testBit
        2 = false
    rw [hhp2, Nat.testBit_and]
    have h27 : ((31 : Nat) ^^^ (1 <<< 2)).testBit 2 = false := by decide
    rw [h27, Bool.and_false]

/-- Witness for C3 at a concrete state: VBlank and Timer pending
(flags 0b00101) and enabled (mask 0b00101), IME on; the first dispatch
lands at 0x40 with only bit 0 cleared, the second at 0x50. -/
theorem interrupt_priority_vblank_timer_witness :
    (cpuStep ⟨0x1234, 0xFFFE, fun _ => 0, true, false, 5, 5, false,
      fun _ => Instr.nop⟩).1.pc = 0x40 ∧
    (cpuStep { (cpuStep ⟨0x1234, 0xFFFE, fun _ => 0, true, false, 5, 5, false,
      fun _ => Instr.nop⟩).1 with ime := true }).1.pc = 0x50 := by
  have h := interrupt_priority_vblank_timer
    ⟨0x1234, 0xFFFE, fun _ => 0, true, false, 5, 5, false, fun _ => Instr.nop⟩
    rfl (by norm_num) (by decide) (by decide) (by decide) (by decide)
    (by decide)
  exact ⟨h.1, h.2.2.2.2.2.2.2.1⟩

lemma xor_shift_testBit : ∀ i < 5, ((31 : Nat) ^^^ (1 <<< i)).testBit i = false := by
  decide

/-- C4: if an interrupt is already pending and enabled when the "enable
interrupts" instruction executes (IME off, delay flag clear), `step()`
does not dispatch it immediately after that instruction: the step that
executes `ei` and the following step (one more instruction) both leave
the pending flags untouched, and only the third step — after that
second instruction completes — dispatches the interrupt, jumping to its
service address and clearing its pending bit. -/
theorem ime_enable_delay (s : CpuState)
    (hime : s.ime = false) (hdelay : s.imeDelay = false)
    (hhalt : s.halted = false)
    (hi1 : s.prog s.pc = Instr.ei) (hi2 : s.prog (s.pc + 1) = Instr.nop)
    (helig : eligible s ≠ 0) :
    (cpuStep s).1.pc = s.pc + 1 ∧
    (cpuStep s).1.intFlags = s.intFlags ∧
    (cpuStep s).1.ime = false ∧
    (cpuStep (cpuStep s).1).1.pc = s.pc + 2 ∧
    (cpuStep (cpuStep s).1).1.intFlags = s.intFlags ∧
    (cpuStep (cpuStep s).1).1.ime = true ∧
    (cpuStep (cpuStep (cpuStep s).1).1).1.pc
      = serviceAddr (highestPriority (eligible s)) ∧
    (cpuStep (cpuStep (cpuStep s).1).1).1.intFlags.testBit
      (highestPriority (eligible s)) = false ∧
    s.intFlags.testBit (highestPriority (eligible s)) = true := by
  have hcond1 : ¬ (s.ime = true ∧ eligible s ≠ 0) := by
    rw [hime]; simp
  have hstep1 : cpuStep s = ({ s with pc := s.pc + 1, imeDelay := true }, 4) := by
    rw [cpuStep, if_neg hcond1, if_neg (by rw [hhalt]; simp)]
    simp only [hi1, execInstr, instrCycles]
    rw [if_neg (by rw [hdelay]; simp)]
  have hcond2 : ¬ (({ s with pc := s.pc + 1, imeDelay := true } :
      CpuState).ime = true ∧
      eligible { s with pc := s.pc + 1, imeDelay := true } ≠ 0) := by
    rw [show ({ s with pc := s.pc + 1, imeDelay := true } :
      CpuState).ime = s.ime from rfl, hime]
    simp
  have hstep2 : cpuStep { s with pc := s.pc + 1, imeDelay := true }
      = ({ s with pc := s.pc + 2, ime := true, imeDelay := false }, 4) := by
    rw [cpuStep, if_neg hcond2, if_neg (by
      rw [show ({ s with pc := s.pc + 1, imeDelay := true } :
        CpuState).halted = s.halted from rfl, hhalt]
      simp)]
    simp only [show ({ s with pc := s.pc + 1, imeDelay := true } :
        CpuState).prog = s.prog from rfl,
      show ({ s with pc := s.pc + 1, imeDelay := true } :
        CpuState).pc = s.pc + 1 from rfl,
      hi2, execInstr, instrCycles]
    rw [if_pos (by exact ⟨by trivial, by simp⟩)]
  have hstep3 : cpuStep { s with pc := s.pc + 2, ime := true, imeDelay := false }
      = (dispatch { s with pc := s.pc + 2, ime := true, imeDelay := false },
        20) := by
    rw [cpuStep, if_pos ⟨rfl, helig⟩]
  rw [hstep1]
  refine ⟨rfl, rfl, hime, ?_, ?_, ?_, ?_, ?_, ?_⟩
  · rw [hstep2]
  · rw [hstep2]
  · rw [hstep2]
  · rw [hstep2, hstep3]
    rfl
  · rw [hstep2, hstep3]
    show (({ s with pc := s.pc + 2, ime := true, imeDelay := false } :
      CpuState).intFlags &&&
        (31 ^^^ (1 <<< highestPriority (eligible s)))).testBit
          (highestPriority (eligible s)) = false
    rw [Nat.testBit_and,
      xor_shift_testBit (highestPriority (eligible s))
        (highestPriority_lt_5 (eligible s)),
      Bool.and_false]
  · have h := (highestPriority_min (eligible s) (eligible_lt_32 s) helig).1
    rw [eligible, Nat.testBit_and, Nat.testBit_and] at h
    simp only [Bool.and_eq_true] at h
    exact h.1.2

/-- Witness for C4 at a concrete state: program `ei; nop; ...`, Timer
(bit 2) pending and enabled; the interrupt is dispatched only by the
third step, at service address 0x50. -/
theorem ime_enable_delay_witness :
    (cpuStep (cpuStep (cpuStep
      ⟨0, 0xFFFE, fun _ => 0, false, false, 4, 4, false,
        fun n => if n = 0 then Instr.ei else Instr.nop⟩).1).1).1.pc = 0x50 ∧
    (cpuStep ⟨0, 0xFFFE, fun _ => 0, false, false, 4, 4, false,
      fun n => if n = 0 then Instr.ei else Instr.nop⟩).1.ime = false := by
  have h := ime_enable_delay
    ⟨0, 0xFFFE, fun _ => 0, false, false, 4, 4, false,
      fun n => if n = 0 then Instr.ei else Instr.nop⟩
    rfl rfl rfl rfl rfl (by decide)
  exact ⟨h.2.2.2.2.2.2.1.trans (by decide), h.2.2.1⟩

/-! ## Timer (claim C5)

Modelled from the spec: free-running divider, user-visible counter
(TIMA), modulo register (TMA), control register (TAC: enable bit 2 +
2-bit clock select).  `step(cycles)` advances the divider at a fixed
rate unconditionally; when enabled, the counter advances at the rate
selected by the clock-select field; on overflow (wrap past 255) the
counter is reloaded from the modulo register and the Timer interrupt
source (pending bit 2) is raised. -/

structure Timer where
  divCounter : Nat
  divReg : Nat
  timaCounter : Nat
  tima : Nat
  tma : Nat
  tac : Nat
  deriving DecidableEq, Repr

/-- The control register's enable bit (bit 2). -/
def timerEnabled (t : Timer) : Bool := t.tac.testBit 2

/-- Modelled from the spec: cycles per counter increment for each value
of the 2-bit clock-select field (value 1 is the fastest). -/
def timerPeriod (t : Timer) : Nat :=
  match t.tac &&& 3 with
  | 0 => 1024
  | 1 => 16
  | 2 => 64
  | _ => 256

/-- Modelled from the spec: advance the timer by one cycle; the divider
always counts (one increment per 256 cycles), the user counter counts
only when enabled; returns the new state and whether the Timer
interrupt was raised by a counter overflow. -/
def timerTick (t : Timer) : Timer × Bool :=
  let t1 :=
    if t.divCounter + 1 = 256 then
      { t with divCounter := 0, divReg := (t.divReg + 1) % 256 }
    else { t with divCounter := t.divCounter + 1 }
  if timerEnabled t then
    if t1.timaCounter + 1 = timerPeriod t then
      if t.tima = 255 then
        ({ t1 with timaCounter := 0, tima := t.tma }, true)
      else
        ({ t1 with timaCounter := 0, tima := t.tima + 1 }, false)
    else ({ t1 with timaCounter := t1.timaCounter + 1 }, false)
  else (t1, false)

/-- Modelled from the spec: the timer's `step(cycles)`, threading the
5-bit interrupt pending-flags register: a raised Timer interrupt sets
pending bit 2. -/
def timerStepIF : Nat → Timer × Nat → Timer × Nat
  | 0, p => p
  | n + 1, (t, f) =>
    timerStepIF n ((timerTick t).1, if (timerTick t).2 then f ||| 4 else f)

lemma timerStepIF_mono (n : Nat) : ∀ (t : Timer) (f : Nat),
    f.testBit 2 = true → (timerStepIF n (t, f)).2.testBit 2 = true := by
  induction n with
  | zero => intro t f hf; exact hf
  | succ n ih =>
    intro t f hf
    show (timerStepIF n
      ((timerTick t).1, if (timerTick t).2 then f ||| 4 else f)).2.testBit 2
        = true
    by_cases hr : (timerTick t).2
    · rw [if_pos hr]
      exact ih _ _ (by rw [Nat.testBit_or]; simp [hf])
    · rw [if_neg hr]
      exact ih _ _ hf

/-- C5: for every enabled timer state in which the user-visible counter
overflows on the next increment (counter at 255, sub-cycle counter one
short of the selected period), the overflow tick reloads the counter
from the modulo register and raises the Timer interrupt, and any
`step(cycles)` containing that tick leaves the Timer pending bit
(bit 2) set. -/
theorem timer_overflow_reload (t : Timer) (f : Nat)
    (hen : timerEnabled t = true) (hov : t.tima = 255)
    (hc : t.timaCounter + 1 = timerPeriod t) :
    (timerTick t).1.tima = t.tma ∧
    (timerTick t).2 = true ∧
    (∀ n, 0 < n → (timerStepIF n (t, f)).2.testBit 2 = true) := by
  have htick : timerTick t =
      (if t.divCounter + 1 = 256 then
        ({ t with
            divCounter := 0
            divReg := (t.divReg + 1) % 256
            timaCounter := 0
            tima := t.tma }, true)
      else
        ({ t with
            divCounter := t.divCounter + 1
            timaCounter := 0
            tima := t.tma }, true)) := by
    by_cases hd : t.divCounter + 1 = 256 <;>
      simp [timerTick, hd, hen, hov, hc]
  refine ⟨?_, ?_, ?_⟩
  · by_cases hd : t.divCounter + 1 = 256 <;> simp [htick, hd]
  · by_cases hd : t.divCounter + 1 = 256 <;> simp [htick, hd]
  · intro n hn
    obtain ⟨m, rfl⟩ : ∃ m, n = m + 1 := ⟨n - 1, by omega⟩
    show (timerStepIF m
      ((timerTick t).1, if (timerTick t).2 then f ||| 4 else f)).2.testBit 2
        = true
    have hr : (timerTick t).2 = true := by
      by_cases hd : t.divCounter + 1 = 256 <;> simp [htick, hd]
    rw [hr, if_pos rfl]
    exact timerStepIF_mono m _ _
      (by rw [Nat.testBit_or]; simp [show Nat.testBit 4 2 = true by decide])

/-- Witness for C5 at a concrete timer: TAC = 0b101 (enabled, fastest
clock, period 16), counter 255 about to overflow, modulo 42. -/
theorem timer_overflow_reload_witness :
    (timerTick ⟨0, 0, 15, 255, 42, 5⟩).1.tima = 42 ∧
    (timerStepIF 3 (⟨0, 0, 15, 255, 42, 5⟩, 0)).2.testBit 2 = true := by
  have h := timer_overflow_reload ⟨0, 0, 15, 255, 42, 5⟩ 0
    (by decide) (by decide) (by decide)
  exact ⟨h.1, h.2.2 3 (by norm_num)⟩

/-! ## Cartridge / MBC1 (claims C6, C7)

Modelled from the spec: the cartridge owns a ROM image and an optional
RAM image plus banking registers; MBC1 writes to 0x0000–0x1FFF toggle
RAM enable (low nibble 0x0A enables), writes to 0x2000–0x3FFF set the
low 5 bits of the ROM bank register with bank 0 treated as bank 1,
writes to 0x4000–0x5FFF set the RAM bank or high ROM-bank bits
depending on the banking-mode latch, writes to 0x6000–0x7FFF set the
latch.  The bank index used for an access is always reduced modulo the
number of banks actually present in the supplied ROM/RAM image. -/

structure Cart where
  rom : List Nat
  ram : List Nat
  romBank : Nat
  ramBank : Nat
  ramEnabled : Bool
  bankMode : Bool
  deriving DecidableEq, Repr

/-- Number of 16 KiB ROM banks actually present in the ROM image. -/
def numRomBanks (c : Cart) : Nat := c.rom.length / 0x4000

/-- Number of 8 KiB RAM banks actually present in the RAM image. -/
def numRamBanks (c : Cart) : Nat := c.ram.length / 0x2000

/-- The ROM bank used for the switchable region: the bank register
reduced modulo the banks actually present. -/
def effectiveRomBank (c : Cart) : Nat := c.romBank % numRomBanks c

/-- The RAM bank used for external-RAM accesses: the bank register
reduced modulo the banks actually present. -/
def effectiveRamBank (c : Cart) : Nat := c.ramBank % numRamBanks c

/-- Index into the RAM image for an external-RAM access at `addr`. -/
def cartRamIndex (c : Cart) (addr : Nat) : Nat :=
  effectiveRamBank c * 0x2000 + (addr - 0xA000)

/-- Modelled from the spec: MBC1 write handling over the cartridge
address ranges. -/
def cartWrite (c : Cart) (addr val : Nat) : Cart :=
  if addr < 0x2000 then { c with ramEnabled := val &&& 0x0F = 0x0A }
  else if addr < 0x4000 then
    { c with romBank := if val &&& 0x1F = 0 then 1 else val &&& 0x1F }
  else if addr < 0x6000 then
    if c.bankMode then { c with ramBank := val &&& 0x03 }
    else { c with romBank := (c.romBank &&& 0x1F) ||| ((val &&& 0x03) <<< 5) }
  else if addr < 0x8000 then { c with bankMode := val &&& 0x01 = 1 }
  else if 0xA000 ≤ addr ∧ addr < 0xC000 then
    if c.ramEnabled then
      { c with ram := c.ram.set (cartRamIndex c addr) val }
    else c
  else c

/-- Index into the ROM image for a ROM read at `addr < 0x8000`:
bank 0 fixed for the low region, the effective (modulo-reduced) bank
for the switchable region. -/
def cartRomIndex (c : Cart) (addr : Nat) : Nat :=
  if addr < 0x4000 then addr
  else effectiveRomBank c * 0x4000 + (addr - 0x4000)

/-- Modelled from the spec: cartridge read — ROM through the banked
index, enabled RAM through the banked index, fill value 0xFF
otherwise. -/
def cartRead (c : Cart) (addr : Nat) : Nat :=
  if addr < 0x8000 then c.rom.getD (cartRomIndex c addr) 0xFF
  else if 0xA000 ≤ addr ∧ addr < 0xC000 then
    if c.ramEnabled then c.ram.getD (cartRamIndex c addr) 0xFF
    else 0xFF
  else 0xFF

lemma and_31_eq_mod (v : Nat) : v &&& 31 = v % 32 := by
  have h := Nat.and_pow_two_sub_one_eq_mod v 5
  norm_num at h
  exact h

/-- C6: for an MBC1 cartridge, writing `v` in 0x01–0x1F to the
ROM-bank-select range 0x2000–0x3FFF sets the selected ROM bank to `v`
reduced modulo the cartridge's bank count, and writing 0x00 to that
range stores bank 1 — never bank 0 (for any cartridge with at least
two banks the effective bank is 1). -/
theorem mbc1_rom_bank_select (c : Cart) (addr v : Nat)
    (h1 : 0x2000 ≤ addr) (h2 : addr < 0x4000) :
    (1 ≤ v → v ≤ 0x1F →
      (cartWrite c addr v).romBank = v ∧
      effectiveRomBank (cartWrite c addr v) = v % numRomBanks c) ∧
    (cartWrite c addr 0).romBank = 1 ∧
    (2 ≤ numRomBanks c →
      effectiveRomBank (cartWrite c addr 0) = 1 ∧
      effectiveRomBank (cartWrite c addr 0) ≠ 0) := by
  have hn1 : ¬ addr < 0x2000 := by omega
  have hw : ∀ w : Nat, cartWrite c addr w =
      { c with romBank := if w &&& 0x1F = 0 then 1 else w &&& 0x1F } := by
    intro w
    rw [cartWrite, if_neg hn1, if_pos h2]
  refine ⟨?_, ?_, ?_⟩
  · intro hv1 hv31
    have hv : v &&& 0x1F = v := by
      rw [and_31_eq_mod]
      omega
    have hvne : ¬ v &&& 0x1F = 0 := by rw [hv]; omega
    rw [hw v]
    constructor
    · show (if v &&& 0x1F = 0 then 1 else v &&& 0x1F) = v
      rw [if_neg hvne, hv]
    · show (if v &&& 0x1F = 0 then 1 else v &&& 0x1F) % numRomBanks c
        = v % numRomBanks c
      rw [if_neg hvne, hv]
  · rw [hw 0]
    show (if 0 &&& 0x1F = 0 then 1 else 0 &&& 0x1F) = 1
    norm_num
  · intro hb
    rw [hw 0]
    have : ((if (0 : Nat) &&& 0x1F = 0 then 1 else 0 &&& 0x1F) : Nat) = 1 := by
      norm_num
    show (if (0 : Nat) &&& 0x1F = 0 then 1 else 0 &&& 0x1F) % numRomBanks c = 1
      ∧ (if (0 : Nat) &&& 0x1F = 0 then 1 else 0 &&& 0x1F) % numRomBanks c ≠ 0
    rw [this, Nat.mod_eq_of_lt (by omega)]
    omega

/-- A concrete 4-bank MBC1 cartridge used by the C6 witness. -/
def cartW : Cart := ⟨List.replicate 0x10000 0, [], 1, 0, false, false⟩

lemma cartW_banks : numRomBanks cartW = 4 := by
  rw [numRomBanks,
    show cartW.rom = List.replicate 0x10000 (0 : Nat) from rfl,
    List.length_replicate]

/-- Witness for C6 at a concrete 4-bank cartridge: writing 0x13 selects
bank 3 (19 mod 4), writing 0x00 selects bank 1. -/
theorem mbc1_rom_bank_select_witness :
    effectiveRomBank (cartWrite cartW 0x2000 0x13) = 3 ∧
    effectiveRomBank (cartWrite cartW 0x2000 0) = 1 := by
  have h := mbc1_rom_bank_select cartW 0x2000 0x13
    (by norm_num) (by norm_num)
  constructor
  · rw [(h.1 (by norm_num) (by norm_num)).2, cartW_banks]
  · exact (h.2.2 (by rw [cartW_banks]; norm_num)).1

/-- C7: for every cartridge state (hence after any sequence of writes)
whose buffers are whole banks, the index used to address the underlying
ROM/RAM byte buffer is in bounds: the bank index is reduced modulo the
banks actually present, so no read or write accesses out of the bounds
of the buffers; writes never change the ROM and never change the RAM's
length, so the bound persists across any write sequence. -/
theorem cart_bank_access_in_bounds (c : Cart) (addr : Nat) :
    (c.rom.length = numRomBanks c * 0x4000 → 1 ≤ numRomBanks c →
      addr < 0x8000 → cartRomIndex c addr < c.rom.length) ∧
    (c.ram.length = numRamBanks c * 0x2000 → 1 ≤ numRamBanks c →
      0xA000 ≤ addr → addr < 0xC000 → cartRamIndex c addr < c.ram.length) ∧
    (∀ v, (cartWrite c addr v).rom = c.rom ∧
      (cartWrite c addr v).ram.length = c.ram.length) := by
  refine ⟨?_, ?_, ?_⟩
  · intro hlen hnb haddr
    rw [cartRomIndex]
    by_cases h4 : addr < 0x4000
    · rw [if_pos h4]
      omega
    · rw [if_neg h4]
      have hmod : effectiveRomBank c < numRomBanks c :=
        Nat.mod_lt _ (by omega)
      have : effectiveRomBank c * 0x4000 + 0x4000 ≤ c.rom.length := by
        rw [hlen]
        calc effectiveRomBank c * 0x4000 + 0x4000
            = (effectiveRomBank c + 1) * 0x4000 := by ring
        _ ≤ numRomBanks c * 0x4000 :=
            Nat.mul_le_mul_right _ (by omega)
      omega
  · intro hlen hnb ha1 ha2
    rw [cartRamIndex]
    have hmod : effectiveRamBank c < numRamBanks c :=
      Nat.mod_lt _ (by omega)
    have : effectiveRamBank c * 0x2000 + 0x2000 ≤ c.ram.length := by
      rw [hlen]
      calc effectiveRamBank c * 0x2000 + 0x2000
          = (effectiveRamBank c + 1) * 0x2000 := by ring
      _ ≤ numRamBanks c * 0x2000 :=
          Nat.mul_le_mul_right _ (by omega)
    omega
  · intro v
    rw [cartWrite]
    split_ifs <;> simp

/-- A concrete 2-bank-ROM / 1-bank-RAM cartridge with an out-of-range
bank register (bank 9), used by the C7 witness. -/
def cartW2 : Cart :=
  ⟨List.replicate 0x8000 0, List.replicate 0x2000 0, 9, 7, true, false⟩

lemma cartW2_rom_length : cartW2.rom.length = 0x8000 := by
  rw [show cartW2.rom = List.replicate 0x8000 (0 : Nat) from rfl,
    List.length_replicate]

lemma cartW2_ram_length : cartW2.ram.length = 0x2000 := by
  rw [show cartW2.ram = List.replicate 0x2000 (0 : Nat) from rfl,
    List.length_replicate]

lemma cartW2_rom_banks : numRomBanks cartW2 = 2 := by
  rw [numRomBanks, cartW2_rom_length]

lemma cartW2_ram_banks : numRamBanks cartW2 = 1 := by
  rw [numRamBanks, cartW2_ram_length]

/-- Witness for C7: on the concrete cartridge `cartW2` (whose bank
register 9 exceeds its 2 ROM banks), a switchable-region read and an
external-RAM access both stay inside the 32 KiB / 8 KiB images. -/
theorem cart_bank_access_in_bounds_witness :
    cartRomIndex cartW2 0x4abc < 0x8000 ∧
    cartRamIndex cartW2 0xA123 < 0x2000 := by
  have h := cart_bank_access_in_bounds cartW2 0x4abc
  have h2 := cart_bank_access_in_bounds cartW2 0xA123
  constructor
  · have hr := h.1 (by rw [cartW2_rom_length, cartW2_rom_banks])
      (by rw [cartW2_rom_banks]; norm_num) (by norm_num)
    rwa [cartW2_rom_length] at hr
  · have hr := h2.2.1 (by rw [cartW2_ram_length, cartW2_ram_banks])
      (by rw [cartW2_ram_banks]) (by norm_num) (by norm_num)
    rwa [cartW2_ram_length] at hr

/-! ## Cartridge header parsing (claims C8, C9)

Modelled from the spec: `CartHeader::from_rom` parses fixed-offset
fields from ROM bytes 0x0100–0x014F — title (16 bytes at 0x134, zero
padding stripped), cartridge type (0x147, selects the MBC variant; an
unsupported value is a construction error), ROM/RAM size codes, header
checksum (0x14D, compared against the sum computed over 0x134–0x14C).
A ROM too short to contain a header or an unsupported cartridge type is
an error; a checksum mismatch is recorded as a diagnostic and the parse
still succeeds. -/

structure CartHeader where
  title : String
  cartType : Nat
  romSizeCode : Nat
  ramSizeCode : Nat
  checksum : Nat
  checksumValid : Bool
  deriving DecidableEq, Repr

/-- Modelled from the spec: the cartridge-type bytes of the supported
MBC variants — none (0x00), MBC1-class (0x01–0x03), MBC3-class
(0x0F–0x13). -/
def supportedCartType (ty : Nat) : Bool :=
  [0x00, 0x01, 0x02, 0x03, 0x0F, 0x10, 0x11, 0x12, 0x13].contains ty

/-- Modelled from the spec: the 8-bit header checksum computed over
bytes 0x134–0x14C (`x = x - byte - 1` with 8-bit wraparound). -/
def headerChecksum (rom : List Nat) : Nat :=
  ((rom.drop 0x134).take 25).foldl (fun acc b => (acc + 511 - b % 256) % 256) 0

/-- Modelled from the spec: the cartridge-header parse, a pure function
of the ROM bytes; errors only on a ROM too short for a header or an
unsupported cartridge type, and records a checksum mismatch as the
diagnostic field `checksumValid` without failing. -/
def CartHeader.from_rom (rom : List Nat) : Except String CartHeader :=
  if rom.length < 0x150 then .error "ROM too short to contain a header"
  else if supportedCartType (rom.getD 0x147 0) = true then
    .ok
      { title := String.mk
          ((((rom.drop 0x134).take 16).takeWhile (fun b => b != 0)).map
            Char.ofNat)
        cartType := rom.getD 0x147 0
        romSizeCode := rom.getD 0x148 0
        ramSizeCode := rom.getD 0x149 0
        checksum := rom.getD 0x14D 0
        checksumValid := headerChecksum rom == rom.getD 0x14D 0 }
  else .error "unsupported cartridge type"

/-- C8: the header parse returns an error exactly for a malformed ROM —
too short to contain a header, or unsupported cartridge type; in
particular a checksum mismatch never causes an error (success depends
only on the length and the type byte). -/
theorem from_rom_error_conditions (rom : List Nat) :
    ((∃ h, CartHeader.from_rom rom = .ok h) ↔
      0x150 ≤ rom.length ∧ supportedCartType (rom.getD 0x147 0) = true) ∧
    (∀ e, CartHeader.from_rom rom = .error e →
      rom.length < 0x150 ∨ supportedCartType (rom.getD 0x147 0) = false) := by
  constructor
  · constructor
    · rintro ⟨h, hh⟩
      rw [CartHeader.from_rom] at hh
      split_ifs at hh with h1 h2
      exact ⟨by omega, h2⟩
    · rintro ⟨h1, h2⟩
      rw [CartHeader.from_rom, if_neg (by omega), if_pos h2]
      exact ⟨_, rfl⟩
  · intro e he
    rw [CartHeader.from_rom] at he
    split_ifs at he with h1 h2
    · exact Or.inl h1
    · exact Or.inr (by simpa using h2)

/-- A concrete 336-byte all-zero ROM: well-formed header (type 0x00),
checksum byte 0 mismatching the computed checksum 231. -/
def romW : List Nat := List.replicate 0x150 0

lemma romW_length : romW.length = 0x150 := by
  rw [romW, List.length_replicate]

lemma romW_type : romW.getD 0x147 0 = 0 := by
  rw [romW]
  rw [List.getD_eq_getElem?_getD, List.getElem?_replicate]
  norm_num

/-- Witness for C8: the all-zero ROM parses successfully even though
its stored checksum byte (0) differs from the computed checksum. -/
theorem from_rom_error_conditions_witness :
    (∃ h, CartHeader.from_rom romW = .ok h) ∧
    headerChecksum romW ≠ romW.getD 0x14D 0 := by
  refine ⟨(from_rom_error_conditions romW).1.mpr ⟨?_, ?_⟩, ?_⟩
  · rw [romW_length]
  · rw [romW_type]
    decide
  · decide

/-- The 16-byte title field "TESTROM" padded with zero bytes. -/
def titleTestRom : List Nat :=
  [84, 69, 83, 84, 82, 79, 77] ++ List.replicate 9 0

/-- C9: parsing a ROM whose title field bytes at offset 0x134 are
"TESTROM" followed by zero padding yields a header whose title is
exactly "TESTROM" with the padding stripped (for any well-formed
remainder of the ROM); the parse is a pure function of the ROM
bytes. -/
theorem from_rom_title_roundtrip (pre post : List Nat)
    (hpre : pre.length = 0x134) (hpost : 12 ≤ post.length)
    (hty : supportedCartType
      ((pre ++ titleTestRom ++ post).getD 0x147 0) = true) :
    ∃ h, CartHeader.from_rom (pre ++ titleTestRom ++ post) = .ok h ∧
      h.title = "TESTROM" := by
  have hlen : (pre ++ titleTestRom ++ post).length = 0x144 + post.length := by
    rw [List.append_assoc, List.length_append, List.length_append, hpre]
    rw [show titleTestRom.length = 16 from rfl]
    omega
  have hdrop : (pre ++ titleTestRom ++ post).drop 0x134
      = titleTestRom ++ post := by
    rw [List.append_assoc, ← hpre]
    exact List.drop_left _ _
  have htake : (titleTestRom ++ post).take 16 = titleTestRom := by
    rw [show (16 : Nat) = titleTestRom.length from rfl]
    exact List.take_left _ _
  rw [CartHeader.from_rom, if_neg (by omega), if_pos hty]
  refine ⟨_, rfl, ?_⟩
  show String.mk (((((pre ++ titleTestRom ++ post).drop 0x134).take
    16).takeWhile (fun b => b != 0)).map Char.ofNat) = "TESTROM"
  rw [hdrop, htake]
  decide

/-- Witness for C9 at a fully concrete ROM: 0x134 zero bytes, the
"TESTROM" title field, and 12 trailing zero bytes. -/
theorem from_rom_title_roundtrip_witness :
    ∃ h, CartHeader.from_rom
      (List.replicate 0x134 0 ++ titleTestRom ++ List.replicate 12 0)
        = .ok h ∧ h.title = "TESTROM" := by
  refine from_rom_title_roundtrip (List.replicate 0x134 0)
    (List.replicate 12 0) (by rw [List.length_replicate])
    (by rw [List.length_replicate]) ?_
  have : (List.replicate 0x134 (0 : Nat) ++ titleTestRom ++
      List.replicate 12 0).getD 0x147 0 = 0 := by
    rw [List.append_assoc]
    rw [List.getD_eq_getElem?_getD, List.getElem?_append_right
      (by rw [List.length_replicate]; norm_num)]
    rw [List.length_replicate]
    decide
  rw [this]
  decide

/-! ## Frontend pixel conversion (claim C10)

Embedded from `src/frontend.rs`: the per-frame loop (lines 52–65, and
identically lines 275–288) converts the 144×160 `screen_buffer` of
2-bit color indices into a 4-bytes-per-pixel image: for each pixel it
indexes the 4-element `GAME_BOY_COLORS` palette with the buffer entry
(a Rust panic if the entry exceeds 3) and writes the color's blue,
green and red components to byte offsets 0, 1 and 2 of the pixel's
slot (`image[pixel_i + 2] = r; image[pixel_i + 1] = g;
image[pixel_i + 0] = b`).  A panic (palette or image index out of
bounds) is modelled as `none`. -/

def SCREEN_WIDTH : Nat := 160

def SCREEN_HEIGHT : Nat := 144

structure Color where
  r : Nat
  g : Nat
  b : Nat
  deriving DecidableEq, Repr

/-- `GAME_BOY_COLORS` from src/frontend.rs:20–25, lightest to
darkest. -/
def GAME_BOY_COLORS : List Color :=
  [⟨155, 188, 15⟩, ⟨139, 172, 15⟩, ⟨48, 98, 48⟩, ⟨15, 56, 15⟩]

/-- Size in bytes of the output image buffer
(`[0u8; SCREEN_WIDTH * SCREEN_HEIGHT * BYTES_PER_PIXEL]`). -/
def IMAGE_SIZE : Nat := SCREEN_WIDTH * SCREEN_HEIGHT * 4

/-- A checked byte store into the image (Rust's indexed assignment
panics out of bounds). -/
def setByte (img : Nat → Nat) (i v : Nat) : Option (Nat → Nat) :=
  if i < IMAGE_SIZE then some (fun j => if j = i then v else img j)
  else none

/-- The three byte stores of one pixel, frontend.rs:61–63: the source
writes them in the order `image[pixel_i + 2] = r`,
`image[pixel_i + 1] = g`, `image[pixel_i + 0] = b`. -/
def writePixel (img : Nat → Nat) (pixel_i : Nat) (color : Color) :
    Option (Nat → Nat) :=
  (setByte img (pixel_i + 2) color.r).bind fun img1 =>
  (setByte img1 (pixel_i + 1) color.g).bind fun img2 =>
  setByte img2 (pixel_i + 0) color.b

/-- The pixel-loop body, frontend.rs:58–63: palette lookup by the
buffer entry (`GAME_BOY_COLORS[color_i]`, a panic if out of bounds),
then the three byte stores. -/
def drawPixel (buf : Nat → Nat → Nat) (row col : Nat) (img : Nat → Nat) :
    Option (Nat → Nat) :=
  match GAME_BOY_COLORS[(buf row col)]? with
  | none => none
  | some color => writePixel img ((row * SCREEN_WIDTH + col) * 4) color

/-- The inner `for tile_col in 0..SCREEN_WIDTH` loop: with `k` columns
remaining, processes columns `SCREEN_WIDTH - k` to `SCREEN_WIDTH - 1`
of `row`. -/
def drawCols (buf : Nat → Nat → Nat) (row : Nat) :
    Nat → (Nat → Nat) → Option (Nat → Nat)
  | 0, img => some img
  | k + 1, img =>
    (drawPixel buf row (SCREEN_WIDTH - (k + 1)) img).bind
      (drawCols buf row k)

/-- The outer `for tile_row in 0..SCREEN_HEIGHT` loop. -/
def drawRows (buf : Nat → Nat → Nat) :
    Nat → (Nat → Nat) → Option (Nat → Nat)
  | 0, img => some img
  | k + 1, img =>
    (drawCols buf (SCREEN_HEIGHT - (k + 1)) SCREEN_WIDTH img).bind
      (drawRows buf k)

/-- The whole per-frame pixel-conversion loop, starting from the
zero-initialized image buffer. -/
def renderImage (buf : Nat → Nat → Nat) : Option (Nat → Nat) :=
  drawRows buf SCREEN_HEIGHT (fun _ => 0)

lemma palette_get_le (n : Nat) (h : n ≤ 3) :
    ∃ color, GAME_BOY_COLORS[n]? = some color := by
  interval_cases n <;> exact ⟨_, rfl⟩

lemma palette_get_gt (n : Nat) (h : 3 < n) : GAME_BOY_COLORS[n]? = none := by
  apply List.getElem?_eq_none
  rw [show GAME_BOY_COLORS.length = 4 from rfl]
  omega

lemma writePixel_eq (img : Nat → Nat) (pixel_i : Nat) (color : Color)
    (h2 : pixel_i + 2 < IMAGE_SIZE) :
    writePixel img pixel_i color = some (fun j =>
      if j = pixel_i + 0 then color.b
      else if j = pixel_i + 1 then color.g
      else if j = pixel_i + 2 then color.r
      else img j) := by
  have h1 : pixel_i + 1 < IMAGE_SIZE := by omega
  have h0 : pixel_i + 0 < IMAGE_SIZE := by omega
  rw [writePixel]
  unfold setByte
  rw [if_pos h2, Option.some_bind]
  simp only []
  rw [if_pos h1, Option.some_bind]
  simp only []
  rw [if_pos h0]

lemma pixel_i_bound (row col : Nat) (hrow : row < 144) (hcol : col < 160) :
    (row * SCREEN_WIDTH + col) * 4 + 2 < IMAGE_SIZE := by
  rw [SCREEN_WIDTH, IMAGE_SIZE, SCREEN_WIDTH, SCREEN_HEIGHT]
  omega

lemma drawPixel_some_iff (buf : Nat → Nat → Nat) (row col : Nat)
    (img : Nat → Nat) (hrow : row < 144) (hcol : col < 160) :
    (drawPixel buf row col img).isSome ↔ buf row col ≤ 3 := by
  constructor
  · intro h
    by_contra hgt
    rw [drawPixel, palette_get_gt _ (by omega)] at h
    simp at h
  · intro hle
    obtain ⟨color, hc⟩ := palette_get_le _ hle
    rw [drawPixel, hc]
    show (writePixel img ((row * SCREEN_WIDTH + col) * 4) color).isSome = true
    rw [writePixel_eq _ _ _ (pixel_i_bound row col hrow hcol)]
    rfl

lemma drawPixel_content (buf : Nat → Nat → Nat) (row col : Nat)
    (img img2 : Nat → Nat) (hrow : row < 144) (hcol : col < 160)
    (h : drawPixel buf row col img = some img2) :
    ∃ color, GAME_BOY_COLORS[(buf row col)]? = some color ∧
      img2 ((row * SCREEN_WIDTH + col) * 4 + 0) = color.b ∧
      img2 ((row * SCREEN_WIDTH + col) * 4 + 1) = color.g ∧
      img2 ((row * SCREEN_WIDTH + col) * 4 + 2) = color.r ∧
      (∀ j, (j < (row * SCREEN_WIDTH + col) * 4 ∨
        (row * SCREEN_WIDTH + col) * 4 + 2 < j) → img2 j = img j) := by
  have hle : buf row col ≤ 3 := by
    have := (drawPixel_some_iff buf row col img hrow hcol).mp (by rw [h]; rfl)
    exact this
  obtain ⟨color, hc⟩ := palette_get_le _ hle
  rw [drawPixel, hc] at h
  replace h : writePixel img ((row * SCREEN_WIDTH + col) * 4) color
      = some img2 := h
  rw [writePixel_eq _ _ _ (pixel_i_bound row col hrow hcol)] at h
  have himg2 := (Option.some.inj h).symm
  refine ⟨color, hc, ?_, ?_, ?_, ?_⟩
  · rw [himg2]
    simp
  · rw [himg2]
    simp
  · rw [himg2]
    simp
  · intro j hj
    have hj0 : ¬ j = (row * SCREEN_WIDTH + col) * 4 + 0 := by omega
    have hj0a : ¬ j = (row * SCREEN_WIDTH + col) * 4 := by omega
    have hj1 : ¬ j = (row * SCREEN_WIDTH + col) * 4 + 1 := by omega
    have hj2 : ¬ j = (row * SCREEN_WIDTH + col) * 4 + 2 := by omega
    rw [himg2]
    simp [hj0, hj0a, hj1, hj2]

lemma drawCols_some_iff (buf : Nat → Nat → Nat) (row : Nat)
    (hrow : row < 144) : ∀ (k : Nat), k ≤ 160 → ∀ (img : Nat → Nat),
    ((drawCols buf row k img).isSome ↔
      ∀ c, 160 - k ≤ c → c < 160 → buf row c ≤ 3) := by
  have hsw : SCREEN_WIDTH = 160 := rfl
  intro k
  induction k with
  | zero =>
    intro hk img
    constructor
    · intro _ c hc1 hc2
      omega
    · intro _
      rw [drawCols]
      rfl
  | succ k ih =>
    intro hk img
    rw [drawCols, hsw]
    rcases hdp : drawPixel buf row (160 - (k + 1)) img with _ | img1
    · have hcol : 160 - (k + 1) < 160 := by omega
      have hnle : ¬ buf row (160 - (k + 1)) ≤ 3 := by
        intro hle
        have h2 := (drawPixel_some_iff buf row _ img hrow hcol).mpr hle
        rw [hdp] at h2
        simp at h2
      rw [Option.none_bind]
      constructor
      · intro h2
        simp at h2
      · intro hall
        exact absurd (hall (160 - (k + 1)) (by omega) (by omega)) hnle
    · have hcol : 160 - (k + 1) < 160 := by omega
      have hle : buf row (160 - (k + 1)) ≤ 3 :=
        (drawPixel_some_iff buf row _ img hrow hcol).mp (by rw [hdp]; rfl)
      rw [Option.some_bind, ih (by omega) img1]
      constructor
      · intro h2 c hc1 hc2
        by_cases hce : c = 160 - (k + 1)
        · rw [hce]
          exact hle
        · exact h2 c (by omega) hc2
      · intro hall c hc1 hc2
        exact hall c (by omega) hc2

lemma drawCols_content (buf : Nat → Nat → Nat) (row : Nat)
    (hrow : row < 144) : ∀ (k : Nat), k ≤ 160 → ∀ (img img2 : Nat → Nat),
    drawCols buf row k img = some img2 →
    ((∀ c, 160 - k ≤ c → c < 160 →
      ∃ color, GAME_BOY_COLORS[(buf row c)]? = some color ∧
        img2 ((row * 160 + c) * 4 + 0) = color.b ∧
        img2 ((row * 160 + c) * 4 + 1) = color.g ∧
        img2 ((row * 160 + c) * 4 + 2) = color.r) ∧
     (∀ j, (j < (row * 160 + (160 - k)) * 4 ∨ (row * 160 + 160) * 4 ≤ j) →
        img2 j = img j)) := by
  have hsw : SCREEN_WIDTH = 160 := rfl
  intro k
  induction k with
  | zero =>
    intro hk img img2 h
    rw [drawCols] at h
    have himg := Option.some.inj h
    constructor
    · intro c hc1 hc2
      omega
    · intro j hj
      rw [← himg]
  | succ k ih =>
    intro hk img img2 h
    rw [drawCols, hsw] at h
    rcases hdp : drawPixel buf row (160 - (k + 1)) img with _ | img1
    · rw [hdp, Option.none_bind] at h
      exact absurd h (by simp)
    · rw [hdp, Option.some_bind] at h
      have hcol : 160 - (k + 1) < 160 := by omega
      obtain ⟨ihA, ihB⟩ := ih (by omega) img1 img2 h
      have dp := drawPixel_content buf row (160 - (k + 1)) img img1 hrow
        hcol hdp
      rw [hsw] at dp
      obtain ⟨color, hc, hb0, hb1, hb2, hun⟩ := dp
      constructor
      · intro c hc1 hc2
        by_cases hce : c = 160 - (k + 1)
        · subst hce
          refine ⟨color, hc, ?_, ?_, ?_⟩
          · rw [ihB _ (Or.inl (by omega))]
            exact hb0
          · rw [ihB _ (Or.inl (by omega))]
            exact hb1
          · rw [ihB _ (Or.inl (by omega))]
            exact hb2
        · exact ihA c (by omega) hc2
      · intro j hj
        rcases hj with hj | hj
        · rw [ihB _ (Or.inl (by omega))]
          exact hun _ (Or.inl (by omega))
        · rw [ihB _ (Or.inr (by omega))]
          exact hun _ (Or.inr (by omega))

lemma drawRows_some_iff (buf : Nat → Nat → Nat) :
    ∀ (k : Nat), k ≤ 144 → ∀ (img : Nat → Nat),
    ((drawRows buf k img).isSome ↔
      ∀ r, 144 - k ≤ r → r < 144 → ∀ c < 160, buf r c ≤ 3) := by
  have hsh : SCREEN_HEIGHT = 144 := rfl
  have hsw : SCREEN_WIDTH = 160 := rfl
  intro k
  induction k with
  | zero =>
    intro hk img
    constructor
    · intro _ r hr1 hr2
      omega
    · intro _
      rw [drawRows]
      rfl
  | succ k ih =>
    intro hk img
    rw [drawRows, hsh, hsw]
    have hrow : 144 - (k + 1) < 144 := by omega
    rcases hcols : drawCols buf (144 - (k + 1)) 160 img with _ | img1
    · have hnall : ¬ ∀ c, 160 - 160 ≤ c → c < 160 →
          buf (144 - (k + 1)) c ≤ 3 := by
        intro hall
        have h2 := (drawCols_some_iff buf _ hrow 160 (by omega) img).mpr hall
        rw [hcols] at h2
        simp at h2
      rw [Option.none_bind]
      constructor
      · intro h2
        simp at h2
      · intro hall
        refine absurd ?_ hnall
        intro c hc1 hc2
        exact hall (144 - (k + 1)) (by omega) (by omega) c hc2
    · have hall1 : ∀ c < 160, buf (144 - (k + 1)) c ≤ 3 := by
        have h2 := (drawCols_some_iff buf _ hrow 160 (by omega) img).mp
          (by rw [hcols]; rfl)
        intro c hc
        exact h2 c (by omega) hc
      rw [Option.some_bind, ih (by omega) img1]
      constructor
      · intro h2 r hr1 hr2 c hc
        by_cases hre : r = 144 - (k + 1)
        · subst hre
          exact hall1 c hc
        · exact h2 r (by omega) hr2 c hc
      · intro hall r hr1 hr2 c hc
        exact hall r (by omega) hr2 c hc

lemma drawRows_content (buf : Nat → Nat → Nat) :
    ∀ (k : Nat), k ≤ 144 → ∀ (img img2 : Nat → Nat),
    drawRows buf k img = some img2 →
    ((∀ r, 144 - k ≤ r → r < 144 → ∀ c < 160,
      ∃ color, GAME_BOY_COLORS[(buf r c)]? = some color ∧
        img2 ((r * 160 + c) * 4 + 0) = color.b ∧
        img2 ((r * 160 + c) * 4 + 1) = color.g ∧
        img2 ((r * 160 + c) * 4 + 2) = color.r) ∧
     (∀ j, (j < (144 - k) * 160 * 4 ∨ 144 * 160 * 4 ≤ j) →
        img2 j = img j)) := by
  have hsh : SCREEN_HEIGHT = 144 := rfl
  have hsw : SCREEN_WIDTH = 160 := rfl
  intro k
  induction k with
  | zero =>
    intro hk img img2 h
    rw [drawRows] at h
    have himg := Option.some.inj h
    constructor
    · intro r hr1 hr2
      omega
    · intro j hj
      rw [← himg]
  | succ k ih =>
    intro hk img img2 h
    rw [drawRows, hsh, hsw] at h
    have hrow : 144 - (k + 1) < 144 := by omega
    rcases hcols : drawCols buf (144 - (k + 1)) 160 img with _ | img1
    · rw [hcols, Option.none_bind] at h
      exact absurd h (by simp)
    · rw [hcols, Option.some_bind] at h
      obtain ⟨ihA, ihB⟩ := ih (by omega) img1 img2 h
      obtain ⟨colsA, colsB⟩ := drawCols_content buf _ hrow 160 (by omega)
        img img1 hcols
      constructor
      · intro r hr1 hr2 c hc
        by_cases hre : r = 144 - (k + 1)
        · subst hre
          obtain ⟨color, hcv, hb0, hb1, hb2⟩ := colsA c (by omega) hc
          refine ⟨color, hcv, ?_, ?_, ?_⟩
          · rw [ihB _ (Or.inl (by omega))]
            exact hb0
          · rw [ihB _ (Or.inl (by omega))]
            exact hb1
          · rw [ihB _ (Or.inl (by omega))]
            exact hb2
        · exact ihA r (by omega) hr2 c hc
      · intro j hj
        rcases hj with hj | hj
        · rw [ihB _ (Or.inl (by omega))]
          exact colsB _ (Or.inl (by omega))
        · rw [ihB _ (Or.inr (by omega))]
          exact colsB _ (Or.inr (by omega))

/-- C10: the frontend's per-frame pixel-conversion loop is panic-free
if and only if every entry of the 144×160 screen buffer is at most 3
(a larger entry makes the `GAME_BOY_COLORS` palette lookup out of
bounds); and on success each pixel's buffer entry selects the palette
color whose blue, green and red components are written to byte offsets
0, 1 and 2 of the pixel's 4-byte slot. -/
theorem frontend_pixel_loop (buf : Nat → Nat → Nat) :
    ((renderImage buf).isSome ↔
      ∀ r < 144, ∀ c < 160, buf r c ≤ 3) ∧
    (∀ img, renderImage buf = some img →
      ∀ r, r < 144 → ∀ c, c < 160 →
        ∃ color, GAME_BOY_COLORS[(buf r c)]? = some color ∧
          img ((r * 160 + c) * 4 + 0) = color.b ∧
          img ((r * 160 + c) * 4 + 1) = color.g ∧
          img ((r * 160 + c) * 4 + 2) = color.r) := by
  constructor
  · rw [renderImage, show SCREEN_HEIGHT = 144 from rfl,
      drawRows_some_iff buf 144 (by norm_num)]
    constructor
    · intro h r hr c hc
      exact h r (by omega) hr c hc
    · intro h r hr1 hr2 c hc
      exact h r hr2 c hc
  · intro img himg r hr c hc
    rw [renderImage, show SCREEN_HEIGHT = 144 from rfl] at himg
    obtain ⟨hA, _⟩ := drawRows_content buf 144 (by norm_num) _ img himg
    exact hA r (by omega) hr c hc

/-- Witness for C10: the all-zero screen buffer renders without a
panic, and the first pixel's byte 0 receives the blue component (15)
of the lightest palette color; a buffer containing the out-of-range
entry 4 makes the loop panic. -/
theorem frontend_pixel_loop_witness :
    (renderImage (fun _ _ => 0)).isSome = true ∧
    (∀ img, renderImage (fun _ _ => 0) = some img → img 0 = 15) ∧
    (renderImage (fun _ _ => 4)).isSome = false := by
  have h := frontend_pixel_loop (fun _ _ => 0)
  have h4 := frontend_pixel_loop (fun _ _ => 4)
  refine ⟨?_, ?_, ?_⟩
  · exact h.1.mpr (by intro r _ c _; norm_num)
  · intro img himg
    obtain ⟨color, hcv, hb0, _, _⟩ := h.2 img himg 0 (by norm_num) 0
      (by norm_num)
    have hcolor : color = ⟨155, 188, 15⟩ := by
      rw [show GAME_BOY_COLORS[(0 : Nat)]? = some ⟨155, 188, 15⟩ from rfl]
        at hcv
      exact (Option.some.inj hcv).symm
    rw [hcolor] at hb0
    simpa using hb0
  · rw [Bool.eq_false_iff]
    intro hs
    have := h4.1.mp hs 0 (by norm_num) 0 (by norm_num)
    omega

end Rugby
